import Mathlib

/-!
Verification of the two-player Wordle escrow contract (`src/src/lib.rs`,
`TwoPlayerWordleContract`) against its natural-language specification.

Shallow embedding conventions:
* Addresses (`soroban_sdk::Address`) are modelled as `Nat`.
* Byte buffers (`Bytes`, `BytesN<32>`) are `List Nat` (one entry per byte).
* Field elements / `U256` digests are `Nat`; `U256::from_be_bytes` on a
  32-byte array is the usual big-endian fold (a bijection below `2^256`).
* The per-game temporary storage is flattened into one `GameState` record;
  a field holds `none` when its storage key is absent, matching
  `env.storage().temporary().get(..)` returning `Option`.
* External capabilities (ledger timestamp, session-key reverse lookup, the
  UltraHonk verifier, the Poseidon2 hash, the `PROOF_BYTES` constant of the
  external crate) live in an `XEnv` record and are quantified over.
* Rust functions that can `panic!`/`unwrap` on missing data return
  `Option (Except Error _)`, with `none` modelling the trap.
* Contract entry points thread the storage state explicitly and return
  `GameState × Option (Except Error out)`: the first component is the
  storage as last written by the Rust body (before host-level rollback),
  the second is the returned `Result` (`none` = trap).  The Soroban host
  discards all storage writes of an invocation that returns an error or
  traps; `hostState` below applies exactly that transactional semantics.
* The game-hub cross-contract calls (`start_game` / `end_game`) are
  recorded as an event list in the output.
-/

/-- `TURN_DURATION_SECS` from the source: 5 minutes per turn. -/
def TURN_DURATION_SECS : Nat := 300

/-- `MAX_TURNS` from the source: 12 guess turns plus 1 final verification. -/
def MAX_TURNS : Nat := 13

/-- `PHASE_WAITING`. -/
def PHASE_WAITING : Nat := 0

/-- `PHASE_ACTIVE`. -/
def PHASE_ACTIVE : Nat := 1

/-- `PHASE_REVEAL`. -/
def PHASE_REVEAL : Nat := 2

/-- `PHASE_FINALIZED`. -/
def PHASE_FINALIZED : Nat := 3

/-- `PHASE_DRAW`. -/
def PHASE_DRAW : Nat := 4

/-- The 32 bytes of the `MERKLE_ROOT` constant. -/
def MERKLE_ROOT_BYTES : List Nat :=
  [0x0a, 0xe4, 0xb8, 0x21, 0xbc, 0xbf, 0xcc, 0x5f,
   0x6a, 0x3b, 0x71, 0x1a, 0x48, 0xce, 0xb8, 0xa8,
   0x6b, 0xaa, 0xd9, 0x69, 0xd6, 0x4f, 0xb9, 0x0c,
   0xfd, 0x2e, 0x2b, 0x36, 0x70, 0xe3, 0x7d, 0xc7]

set_option maxRecDepth 4000

/-- `U256::from_be_bytes`: big-endian byte fold into a number. -/
def beBytesToNat (bs : List Nat) : Nat :=
  bs.foldl (fun acc b => acc * 256 + b) 0

/-- The Merkle root as a field element, as compared in `do_verify_guess`. -/
def MERKLE_ROOT : Nat := beBytesToNat MERKLE_ROOT_BYTES

/-- The contract's `Error` enum. -/
inductive Error where
  | VkParseError
  | ProofParseError
  | VerificationFailed
  | VkNotSet
  | InvalidGuessLength
  | InvalidCharacter
  | InvalidMerkleProof
  | GuessWordMismatch
  | GameExpired
  | NoActiveGame
  | GameAlreadyExists
  | WrongPlayer
  | WrongPhase
  | NotYourTurn
  | AlreadyWithdrawn
  | NotWinner
  | InvalidReveal
  | InvalidSessionKey
  deriving DecidableEq, Repr

/-- A cross-contract call to the game hub (`call_start_game` / `call_end_game`). -/
inductive HubCall where
  | startGame (player1 player2 : Nat)
  | endGame (player1Won : Bool)
  deriving DecidableEq, Repr

/-- External environment of one invocation: ledger time, session-key
reverse map, external verifier behaviour and Poseidon2 hash. -/
structure XEnv where
  /-- `env.ledger().timestamp()` (constant within one invocation). -/
  timestamp : Nat
  /-- Temporary-storage reverse map `session_key → (game_id, player)`. -/
  sessionRev : Nat → Option (Nat × Nat)
  /-- The game id the invocation addresses. -/
  gameId : Nat
  /-- `PROOF_BYTES` of the `ultrahonk_soroban_verifier` crate. -/
  proofLen : Nat
  /-- Whether the guess-result verification key is in instance storage. -/
  vkPresent : Bool
  /-- Whether `UltraHonkVerifier::new` succeeds on the stored guess vk. -/
  vkParses : Bool
  /-- Outcome of `verifier.verify(proof, public_inputs)` for the guess vk. -/
  verify : List Nat → List Nat → Bool
  /-- Whether the word-commit verification key is in instance storage. -/
  wcVkPresent : Bool
  /-- Whether `UltraHonkVerifier::new` succeeds on the stored word-commit vk. -/
  wcVkParses : Bool
  /-- Outcome of `verifier.verify` for the word-commit vk. -/
  wcVerify : List Nat → List Nat → Bool
  /-- `env.crypto().poseidon2_hash([a, b], BN254)`. -/
  poseidon2 : Nat → Nat → Nat

/-- The per-game temporary storage of `TwoPlayerWordleContract`, one field
per storage key; `none` means the key is absent. -/
structure GameState where
  phase : Option Nat
  player1 : Option Nat
  player2 : Option Nat
  commitment1 : Option (List Nat)
  commitment2 : Option (List Nat)
  turn : Option Nat
  deadline : Option Nat
  lastGuess : Option (List Nat)
  lastResults : Option (List Nat)
  winner : Option Nat
  escrowToken : Option Nat
  escrowAmount : Option Int
  p1Withdrawn : Option Bool
  p2Withdrawn : Option Bool
  p1Time : Option Nat
  p2Time : Option Nat
  p1Revealed : Option Bool
  p2Revealed : Option Bool
  p1Word : Option (List Nat)
  p2Word : Option (List Nat)
  deriving DecidableEq, Repr

/-- `resolve_caller_simple`: after `require_auth`, a registered session key
for this game resolves to the actual player; otherwise the caller acts as
themself. -/
def resolveCallerSimple (env : XEnv) (caller : Nat) : Nat :=
  match env.sessionRev caller with
  | some (storedGameId, actualPlayer) =>
      if storedGameId = env.gameId then actualPlayer else caller
  | none => caller

/-- `extract_commitment_from_pi`: bytes 0..31 of the public inputs, each
read with `unwrap_or(0)`. -/
def extractCommitmentFromPi (publicInputs : List Nat) : List Nat :=
  (List.range 32).map (fun i => publicInputs.getD i 0)

/-- The letter check loop of `pi_letters_match` over the given index list:
letter field `i` lives at byte `32 + i*32 + 31`; `word.get(i).unwrap()`
traps (`none`) when the word is shorter than the index. -/
def piLettersCheck (publicInputs word : List Nat) : List Nat → Option Bool
  | [] => some true
  | i :: rest =>
      match word.get? i with
      | none => none
      | some w =>
          if publicInputs.getD (32 + i * 32 + 31) 0 ≠ w then some false
          else piLettersCheck publicInputs word rest

/-- `pi_letters_match`: the five letter fields of the public inputs must
match the given word. -/
def piLettersMatch (publicInputs word : List Nat) : Option Bool :=
  piLettersCheck publicInputs word [0, 1, 2, 3, 4]

/-- The five feedback codes extracted in `submit_turn` and
`do_verify_reveal`: byte `192 + i*32 + 31` for `i = 0..4`, default 0. -/
def extractResults (publicInputs : List Nat) : List Nat :=
  (List.range 5).map (fun i => publicInputs.getD (192 + i * 32 + 31) 0)

/-- `do_verify_proof`: length gate, vk lookup, vk parse, then the external
verifier. -/
def doVerifyProof (env : XEnv) (publicInputs proofBytes : List Nat) :
    Except Error Unit :=
  if proofBytes.length ≠ env.proofLen then .error .ProofParseError
  else if env.vkPresent = false then .error .VkNotSet
  else if env.vkParses = false then .error .VkParseError
  else if env.verify proofBytes publicInputs then .ok ()
  else .error .VerificationFailed

/-- `do_verify_word_commit`: length gate, commitment binding, vk lookup,
vk parse, then the external verifier (word-commit key). -/
def doVerifyWordCommit (env : XEnv) (commitment : List Nat)
    (publicInputs proofBytes : List Nat) : Except Error Unit :=
  if proofBytes.length ≠ env.proofLen then .error .ProofParseError
  else if commitment ≠ extractCommitmentFromPi publicInputs then
    .error .GuessWordMismatch
  else if env.wcVkPresent = false then .error .VkNotSet
  else if env.wcVkParses = false then .error .VkParseError
  else if env.wcVerify proofBytes publicInputs then .ok ()
  else .error .VerificationFailed

/-- `do_verify_reveal`: commitment binding, word length, letter binding,
all-correct feedback codes, then the ZK proof. -/
def doVerifyReveal (env : XEnv) (commitment revealWord publicInputs
    proofBytes : List Nat) : Option (Except Error Unit) :=
  if commitment ≠ extractCommitmentFromPi publicInputs then
    some (.error .InvalidReveal)
  else if revealWord.length ≠ 5 then some (.error .InvalidGuessLength)
  else
    match piLettersMatch publicInputs revealWord with
    | none => none
    | some false => some (.error .InvalidReveal)
    | some true =>
        if (extractResults publicInputs).all (fun r => r = 2) = false then
          some (.error .InvalidReveal)
        else
          some (doVerifyProof env publicInputs proofBytes)

/-- The Merkle fold loop of `do_verify_guess`: for each path element, hash
`(current, sibling)` when the side bit is 0 and `(sibling, current)`
otherwise; `path_indices.get(i).unwrap()` traps (`none`) when the side-bit
list is exhausted before the element list. -/
def merkleFold (h : Nat → Nat → Nat) :
    Nat → List Nat → List Nat → Option Nat
  | current, [], _ => some current
  | current, sibling :: elsRest, idxs =>
      match idxs with
      | [] => none
      | idx :: idxsRest =>
          merkleFold h (if idx = 0 then h current sibling
                        else h sibling current) elsRest idxsRest

/-- The leaf packing of `do_verify_guess`:
`l1*256^4 + l2*256^3 + l3*256^2 + l4*256 + l5` (indices default 0; in the
source the word length is checked to be 5 before this point). -/
def leafValue (word : List Nat) : Nat :=
  word.getD 0 0 * 256 ^ 4 + word.getD 1 0 * 256 ^ 3 +
  word.getD 2 0 * 256 ^ 2 + word.getD 3 0 * 256 + word.getD 4 0

/-- `do_verify_guess`: word shape checks, leaf packing, Merkle fold,
root comparison. -/
def doVerifyGuess (h : Nat → Nat → Nat)
    (guessWord pathElements pathIndices : List Nat) :
    Option (Except Error Unit) :=
  if guessWord.length ≠ 5 then some (.error .InvalidGuessLength)
  else if guessWord.any (fun b => decide (b < 0x61 ∨ b > 0x7A)) then
    some (.error .InvalidCharacter)
  else
    match merkleFold h (leafValue guessWord) pathElements pathIndices with
    | none => none
    | some finalHash =>
        if finalHash ≠ MERKLE_ROOT then some (.error .InvalidMerkleProof)
        else some (.ok ())

/-- Host-level transactional semantics (Soroban): storage writes of an
invocation that returns an error or traps are discarded; only a
successfully returning invocation commits its writes. -/
def hostState (s : GameState) (r : GameState × Option (Except Error α)) :
    GameState :=
  match r.2 with
  | some (.ok _) => r.1
  | _ => s

/-- `submit_turn`.  Output: the storage as last written by the Rust body,
paired with `some (Ok events)` / `some (Err e)` / `none` (trap). -/
def submitTurn (env : XEnv) (s : GameState) (caller : Nat)
    (myGuessWord pathElements pathIndices publicInputs proofBytes : List Nat) :
    GameState × Option (Except Error (List HubCall)) :=
  let actualCaller := resolveCallerSimple env caller
  match s.phase with
  | none => (s, some (.error .NoActiveGame))
  | some phase =>
    if phase ≠ PHASE_ACTIVE then (s, some (.error .WrongPhase)) else
    match s.deadline with
    | none => (s, some (.error .NoActiveGame))
    | some deadline =>
      if env.timestamp > deadline then (s, some (.error .GameExpired)) else
      match s.turn with
      | none => (s, some (.error .NoActiveGame))
      | some turn =>
        match s.player1 with
        | none => (s, some (.error .NoActiveGame))
        | some player1 =>
          match s.player2 with
          | none => (s, some (.error .NoActiveGame))
          | some player2 =>
            let expectedPlayer := if turn % 2 = 1 then player1 else player2
            if actualCaller ≠ expectedPlayer then
              (s, some (.error .NotYourTurn))
            else
              let opponent :=
                if actualCaller = player1 then player2 else player1
              if turn = 1 then
                match doVerifyGuess env.poseidon2 myGuessWord pathElements
                    pathIndices with
                | none => (s, none)
                | some (.error e) => (s, some (.error e))
                | some (.ok _) =>
                  let s1 := { s with lastGuess := some myGuessWord,
                                     turn := some 2 }
                  let p1Remaining := TURN_DURATION_SECS -
                    (env.timestamp - (deadline - TURN_DURATION_SECS))
                  let s2 := { s1 with p1Time := some p1Remaining }
                  let p2Remaining := s2.p2Time.getD TURN_DURATION_SECS
                  let newDeadline := env.timestamp + p2Remaining
                  ({ s2 with deadline := some newDeadline }, some (.ok []))
              else
                match (if actualCaller = player1 then s.commitment1
                       else s.commitment2) with
                | none => (s, some (.error .NoActiveGame))
                | some myCommitment =>
                  match s.lastGuess with
                  | none => (s, some (.error .NoActiveGame))
                  | some opponentGuess =>
                    if myCommitment ≠ extractCommitmentFromPi publicInputs then
                      (s, some (.error .GuessWordMismatch))
                    else
                      match piLettersMatch publicInputs opponentGuess with
                      | none => (s, none)
                      | some false => (s, some (.error .GuessWordMismatch))
                      | some true =>
                        match doVerifyProof env publicInputs proofBytes with
                        | .error e => (s, some (.error e))
                        | .ok _ =>
                          let results := extractResults publicInputs
                          let allCorrect := results.all (fun r => r = 2)
                          let s1 := { s with lastResults := some results }
                          if allCorrect then
                            ({ s1 with phase := some PHASE_REVEAL,
                                       winner := some opponent },
                             some (.ok []))
                          else if turn = MAX_TURNS then
                            ({ s1 with phase := some PHASE_DRAW,
                                       p1Revealed := some false,
                                       p2Revealed := some false },
                             some (.ok [HubCall.endGame false]))
                          else
                            match doVerifyGuess env.poseidon2 myGuessWord
                                pathElements pathIndices with
                            | none => (s1, none)
                            | some (.error e) => (s1, some (.error e))
                            | some (.ok _) =>
                              let s2 := { s1 with
                                lastGuess := some myGuessWord,
                                turn := some (turn + 1) }
                              let myRemaining :=
                                deadline - env.timestamp
                              let s3 :=
                                if actualCaller = player1 then
                                  { s2 with p1Time := some myRemaining }
                                else
                                  { s2 with p2Time := some myRemaining }
                              let opponentRemaining :=
                                (if opponent = player1 then s3.p1Time
                                 else s3.p2Time).getD TURN_DURATION_SECS
                              let newDeadline :=
                                env.timestamp + opponentRemaining
                              ({ s3 with deadline := some newDeadline },
                               some (.ok []))

/-- `claim_timeout`. -/
def claimTimeout (env : XEnv) (s : GameState) (caller : Nat)
    (revealWord publicInputs proofBytes : List Nat) :
    GameState × Option (Except Error (List HubCall)) :=
  let actualCaller := resolveCallerSimple env caller
  match s.phase with
  | none => (s, some (.error .NoActiveGame))
  | some phase =>
    if phase ≠ PHASE_ACTIVE then (s, some (.error .WrongPhase)) else
    match s.deadline with
    | none => (s, some (.error .NoActiveGame))
    | some deadline =>
      if env.timestamp ≤ deadline then (s, some (.error .WrongPhase)) else
      match s.player1 with
      | none => (s, some (.error .NoActiveGame))
      | some player1 =>
        match s.player2 with
        | none => (s, some (.error .NoActiveGame))
        | some player2 =>
          match s.turn with
          | none => (s, some (.error .NoActiveGame))
          | some turn =>
            let timedOutPlayer :=
              if turn % 2 = 1 then player1 else player2
            if actualCaller = timedOutPlayer then
              (s, some (.error .WrongPlayer))
            else
              match (if actualCaller = player1 then s.commitment1
                     else s.commitment2) with
              | none => (s, some (.error .NoActiveGame))
              | some callerCommitment =>
                match doVerifyReveal env callerCommitment revealWord
                    publicInputs proofBytes with
                | none => (s, none)
                | some (.error e) => (s, some (.error e))
                | some (.ok _) =>
                  let s1 :=
                    if actualCaller = player1 then
                      { s with p1Word := some revealWord }
                    else
                      { s with p2Word := some revealWord }
                  let s2 := { s1 with winner := some actualCaller,
                                      phase := some PHASE_FINALIZED }
                  let player1Won := actualCaller = player1
                  (s2, some (.ok [HubCall.endGame player1Won]))

/-- `withdraw`.  The token transfer is an external must-succeed call; the
only storage write (the caller's one-shot guard) happens after every
fallible step, so the raw state on an error path is the input state. -/
def withdraw (env : XEnv) (s : GameState) (caller : Nat) :
    GameState × Except Error Int :=
  let actualCaller := resolveCallerSimple env caller
  match s.phase with
  | none => (s, .error .NoActiveGame)
  | some phase =>
    if phase ≠ PHASE_FINALIZED ∧ phase ≠ PHASE_DRAW then
      (s, .error .WrongPhase)
    else
      match s.player1 with
      | none => (s, .error .NoActiveGame)
      | some player1 =>
        match s.player2 with
        | none => (s, .error .NoActiveGame)
        | some player2 =>
          let isP1 := actualCaller = player1
          let isP2 := actualCaller = player2
          if ¬isP1 ∧ ¬isP2 then (s, .error .WrongPlayer)
          else
            let alreadyWithdrawn :=
              (if isP1 then s.p1Withdrawn else s.p2Withdrawn).getD false
            if alreadyWithdrawn then (s, .error .AlreadyWithdrawn)
            else
              let escrowPerPlayer := s.escrowAmount.getD 0
              match s.escrowToken with
              | none => (s, .error .NoActiveGame)
              | some _ =>
                if phase = PHASE_FINALIZED then
                  match s.winner with
                  | none => (s, .error .NoActiveGame)
                  | some winner =>
                    if actualCaller ≠ winner then (s, .error .NotWinner)
                    else
                      let payout := escrowPerPlayer * 2
                      let s1 :=
                        if isP1 then { s with p1Withdrawn := some true }
                        else { s with p2Withdrawn := some true }
                      (s1, .ok payout)
                else
                  let revealed :=
                    (if isP1 then s.p1Revealed else s.p2Revealed).getD false
                  if revealed = false then (s, .error .InvalidReveal)
                  else
                    let payout := escrowPerPlayer
                    let s1 :=
                      if isP1 then { s with p1Withdrawn := some true }
                      else { s with p2Withdrawn := some true }
                    (s1, .ok payout)

/-- A sequence of `withdraw` invocations under host semantics: each error
rolls back (keeps the pre-call state), each success commits its state and
adds its payout to the running total. -/
def withdrawSeq (env : XEnv) : GameState → List Nat → GameState × Int
  | s, [] => (s, 0)
  | s, c :: cs =>
      match withdraw env s c with
      | (s', .ok p) =>
          let r := withdrawSeq env s' cs
          (r.1, p + r.2)
      | (_, .error _) => withdrawSeq env s cs

/-- Modelled from the spec (§4.3), for comparison with the source fold:
"Pack the five validated characters into a single leaf value via a fixed
positional encoding (most significant letter first)". -/
def specLeaf (word : List Nat) : Nat :=
  word.foldl (fun acc b => acc * 256 + b) 0

/-- Modelled from the spec (§4.3), for comparison with the source fold:
"at each step, concatenate (current, sibling) if the side bit says
'current is left' else (sibling, current), and replace current with the
hash of that pair". -/
def specFold (h : Nat → Nat → Nat) (leaf : Nat)
    (pathElements pathIndices : List Nat) : Nat :=
  (pathElements.zip pathIndices).foldl
    (fun cur p => if p.2 = 0 then h cur p.1 else h p.1 cur) leaf

/-- A 5-letter lowercase-ASCII word, as validated by `do_verify_guess`. -/
def validWord (word : List Nat) : Prop :=
  word.length = 5 ∧ ∀ b ∈ word, 0x61 ≤ b ∧ b ≤ 0x7A

instance (word : List Nat) : Decidable (validWord word) := by
  unfold validWord; infer_instance

lemma merkleFold_eq_specFold (h : Nat → Nat → Nat) :
    ∀ (els idxs : List Nat) (cur : Nat), els.length ≤ idxs.length →
      merkleFold h cur els idxs = some (specFold h cur els idxs) := by
  intro els
  induction els with
  | nil => intro idxs cur _; simp [merkleFold, specFold]
  | cons e es ih =>
      intro idxs cur hle
      cases idxs with
      | nil => simp at hle
      | cons i is =>
          simp only [merkleFold, specFold, List.zip_cons_cons,
            List.foldl_cons]
          simpa [specFold] using ih is _ (by simpa using hle)

lemma merkleFold_none_of_short (h : Nat → Nat → Nat) :
    ∀ (els idxs : List Nat) (cur : Nat), idxs.length < els.length →
      merkleFold h cur els idxs = none := by
  intro els
  induction els with
  | nil => intro idxs cur hlt; simp at hlt
  | cons e es ih =>
      intro idxs cur hlt
      cases idxs with
      | nil => simp [merkleFold]
      | cons i is =>
          simp only [merkleFold]
          exact ih is _ (by simpa using hlt)

lemma exists_five_of_length_five (w : List Nat) (h : w.length = 5) :
    ∃ a b c d e, w = [a, b, c, d, e] := by
  rcases w with _ | ⟨a, _ | ⟨b, _ | ⟨c, _ | ⟨d, _ | ⟨e, _ | ⟨f, t⟩⟩⟩⟩⟩⟩ <;>
    simp_all

lemma leafValue_eq_specLeaf (w : List Nat) (h : w.length = 5) :
    leafValue w = specLeaf w := by
  obtain ⟨a, b, c, d, e, rfl⟩ := exists_five_of_length_five w h
  simp [leafValue, specLeaf]
  ring

/-- C6: the dictionary membership verifier rejects words that are not
exactly 5 bytes (`InvalidGuessLength`) or contain a byte outside lowercase
ASCII (`InvalidCharacter`) before any hashing (its result is then
independent of the hash primitive); for a valid word with an equal-length
side-bit list, it packs the letters most-significant-first, folds the path
with (current, sibling) on side bit 0 and (sibling, current) otherwise,
and succeeds exactly when the folded value equals `MERKLE_ROOT`, any other
value yielding `InvalidMerkleProof`. -/
theorem verify_guess_merkle_spec (h h' : Nat → Nat → Nat)
    (w els idxs : List Nat) :
    (w.length ≠ 5 →
      doVerifyGuess h w els idxs = some (.error .InvalidGuessLength)) ∧
    (w.length = 5 → (∃ b ∈ w, b < 0x61 ∨ 0x7A < b) →
      doVerifyGuess h w els idxs = some (.error .InvalidCharacter)) ∧
    (¬ validWord w →
      doVerifyGuess h w els idxs = doVerifyGuess h' w els idxs) ∧
    (validWord w → idxs.length = els.length →
      (doVerifyGuess h w els idxs = some (.ok ()) ↔
        specFold h (specLeaf w) els idxs = MERKLE_ROOT) ∧
      (specFold h (specLeaf w) els idxs ≠ MERKLE_ROOT →
        doVerifyGuess h w els idxs = some (.error .InvalidMerkleProof))) := by
  refine ⟨?_, ?_, ?_, ?_⟩
  · intro hlen
    simp [doVerifyGuess, hlen]
  · intro hlen hbad
    simp [doVerifyGuess, hlen, hbad]
  · intro hnv
    by_cases hlen : w.length = 5
    · have hbad : ∃ b ∈ w, b < 0x61 ∨ 0x7A < b := by
        by_contra hno
        push_neg at hno
        exact hnv ⟨hlen, fun b hb => by
          have := hno b hb; omega⟩
      simp [doVerifyGuess, hlen, hbad]
    · simp [doVerifyGuess, hlen]
  · intro hv hlen2
    obtain ⟨h5, hall⟩ := hv
    have hno : ¬ ∃ b ∈ w, b < 0x61 ∨ 0x7A < b := by
      push_neg
      intro b hb
      have := hall b hb
      omega
    have hfold := merkleFold_eq_specFold h els idxs (leafValue w)
      (le_of_eq hlen2.symm)
    rw [leafValue_eq_specLeaf w h5] at hfold
    have hleaf := leafValue_eq_specLeaf w h5
    constructor
    · constructor
      · intro hok
        by_contra hne
        simp [doVerifyGuess, h5, hno, hleaf, hfold, hne] at hok
      · intro heq
        simp [doVerifyGuess, h5, hno, hleaf, hfold, heq]
    · intro hne
      simp [doVerifyGuess, h5, hno, hleaf, hfold, hne]

/-- Witness for C6 at the concrete word "hello" with an empty path. -/
theorem verify_guess_merkle_spec_witness :
    validWord [104, 101, 108, 108, 111] ∧
    doVerifyGuess (fun a b => a + b) [104, 101, 108, 108, 111] [] [] =
      some (.error .InvalidMerkleProof) := by
  refine ⟨by decide, ?_⟩
  exact ((verify_guess_merkle_spec (fun a b => a + b) (fun a b => a + b)
    [104, 101, 108, 108, 111] [] []).2.2.2 (by decide) rfl).2 (by decide)

/-- C10: with a valid 5-letter lowercase word and a side-bit list shorter
than the sibling list, `do_verify_guess` traps (unwrap of a missing index,
modelled as `none`) instead of returning an error value; with equal-length
lists no trap is reachable. -/
theorem merkle_path_panic (h : Nat → Nat → Nat) (w els idxs : List Nat) :
    (validWord w → idxs.length < els.length →
      doVerifyGuess h w els idxs = none) ∧
    (idxs.length = els.length → doVerifyGuess h w els idxs ≠ none) := by
  constructor
  · intro hv hlt
    obtain ⟨h5, hall⟩ := hv
    have hno : ¬ ∃ b ∈ w, b < 0x61 ∨ 0x7A < b := by
      push_neg
      intro b hb
      have := hall b hb
      omega
    simp [doVerifyGuess, h5, hno,
      merkleFold_none_of_short h els idxs _ hlt]
  · intro hlen
    by_cases h5 : w.length = 5
    · by_cases hex : ∃ b ∈ w, b < 0x61 ∨ 0x7A < b
      · simp [doVerifyGuess, h5, hex]
      · have hfold := merkleFold_eq_specFold h els idxs (leafValue w)
          (le_of_eq hlen.symm)
        by_cases hroot :
            specFold h (leafValue w) els idxs = MERKLE_ROOT <;>
          simp [doVerifyGuess, h5, hex, hfold, hroot]
    · simp [doVerifyGuess, h5]

/-- Witness for C10: the word "hello" with one sibling and no side bit
traps; with no sibling and no side bit it returns a value. -/
theorem merkle_path_panic_witness :
    doVerifyGuess (fun a b => a + b) [104, 101, 108, 108, 111] [7] [] =
      none ∧
    doVerifyGuess (fun a b => a + b) [104, 101, 108, 108, 111] [] [] ≠
      none := by
  constructor
  · exact (merkle_path_panic (fun a b => a + b)
      [104, 101, 108, 108, 111] [7] []).1 (by decide) (by decide)
  · exact (merkle_path_panic (fun a b => a + b)
      [104, 101, 108, 108, 111] [] []).2 rfl

/-- C9: a proof buffer whose length differs from the fixed expected proof
length is rejected with `ProofParseError` before the external verifier is
invoked — the statement quantifies over every `XEnv`, hence over every
behaviour of the external verifier, so the outcome cannot depend on it.
Covered paths: `do_verify_proof` (guess judging and every reveal),
`do_verify_word_commit` (create and join), the reveal pipeline
`do_verify_reveal` once its binder checks pass, and a full `submit_turn`
call at turn ≥ 2 whose binder checks pass. -/
theorem proof_length_gate (env : XEnv) (s : GameState) (caller : Nat)
    (com pi proof guess els idxs : List Nat)
    (hlen : proof.length ≠ env.proofLen) :
    doVerifyProof env pi proof = .error .ProofParseError ∧
    doVerifyWordCommit env com pi proof = .error .ProofParseError ∧
    (∀ word : List Nat, com = extractCommitmentFromPi pi → word.length = 5 →
      piLettersMatch pi word = some true →
      (extractResults pi).all (fun r => r = 2) = true →
      doVerifyReveal env com word pi proof =
        some (.error .ProofParseError)) ∧
    (∀ (d t p1 p2 : Nat) (lg : List Nat),
      s.phase = some PHASE_ACTIVE → s.deadline = some d →
      env.timestamp ≤ d → s.turn = some t → 2 ≤ t →
      s.player1 = some p1 → s.player2 = some p2 →
      resolveCallerSimple env caller = (if t % 2 = 1 then p1 else p2) →
      (if resolveCallerSimple env caller = p1 then s.commitment1
       else s.commitment2) = some com →
      s.lastGuess = some lg →
      com = extractCommitmentFromPi pi →
      piLettersMatch pi lg = some true →
      (submitTurn env s caller guess els idxs pi proof).2 =
        some (.error .ProofParseError)) := by
  have hpp : doVerifyProof env pi proof = .error .ProofParseError := by
    simp [doVerifyProof, hlen]
  refine ⟨hpp, ?_, ?_, ?_⟩
  · simp [doVerifyWordCommit, hlen]
  · intro word hcom hw5 hlet hres
    simp [doVerifyReveal, hcom, hw5, hlet, hres, hpp]
  · intro d t p1 p2 lg hphase hdead hts hturn ht2 hp1 hp2 hpar hcom hlg
      hcomeq hlet
    have hnotlate : ¬ env.timestamp > d := by omega
    have hne1 : t ≠ 1 := by omega
    by_cases hodd : t % 2 = 1
    · have hres : resolveCallerSimple env caller = p1 := by
        rw [hpar, if_pos hodd]
      rw [hres] at hcom
      simp at hcom
      simp [submitTurn, hphase, hdead, hnotlate, hturn, hp1, hp2, hne1,
        hres, hodd, hcom, hcomeq, hlg, hlet, hpp]
    · have hres : resolveCallerSimple env caller = p2 := by
        rw [hpar, if_neg hodd]
      rw [hres] at hcom
      simp [submitTurn, hphase, hdead, hnotlate, hturn, hp1, hp2, hne1,
        hres, hodd, hcom, hcomeq, hlg, hlet, hpp]

/-- Witness for C9: a 0-byte proof against an environment expecting
1-byte proofs. -/
theorem proof_length_gate_witness :
    doVerifyProof
      ⟨0, fun _ => none, 0, 1, true, true, fun _ _ => true, true, true,
       fun _ _ => true, fun a b => a + b⟩ [] [] =
      .error .ProofParseError := by
  exact (proof_length_gate
    ⟨0, fun _ => none, 0, 1, true, true, fun _ _ => true, true, true,
     fun _ _ => true, fun a b => a + b⟩
    ⟨none, none, none, none, none, none, none, none, none, none, none,
     none, none, none, none, none, none, none, none, none⟩
    0 [] [] [] [] [] [] (by decide)).1

/-- The storage after a successful turn-1 move (deadline `d`, guess `g`):
P1's clock is charged the elapsed time, the deadline rolls to P2. -/
def turn1State (env : XEnv) (s : GameState) (d : Nat) (g : List Nat) :
    GameState :=
  { s with lastGuess := some g, turn := some 2,
           p1Time := some (TURN_DURATION_SECS -
             (env.timestamp - (d - TURN_DURATION_SECS))),
           deadline := some (env.timestamp +
             s.p2Time.getD TURN_DURATION_SECS) }

/-- The storage after a successful non-final, non-winning move by resolved
caller `ac` at turn `t` with prior deadline `d`: results stored, guess
replaced, turn advanced, the mover's clock banked, deadline rolled over to
the opponent's banked time (read after the mover's clock write, as in the
source). -/
def advanceState (env : XEnv) (s : GameState) (ac p1 p2 t d : Nat)
    (g pi : List Nat) : GameState :=
  let s2 := { s with lastResults := some (extractResults pi),
                     lastGuess := some g, turn := some (t + 1) }
  let s3 := if ac = p1 then { s2 with p1Time := some (d - env.timestamp) }
            else { s2 with p2Time := some (d - env.timestamp) }
  let opponent := if ac = p1 then p2 else p1
  let opponentRemaining :=
    (if opponent = p1 then s3.p1Time else s3.p2Time).getD TURN_DURATION_SECS
  { s3 with deadline := some (env.timestamp + opponentRemaining) }

/-- Inversion of a successful `submit_turn`: every success passes the
phase, deadline, and turn-parity gates, and lands in exactly one of the
four commit branches (turn-1 guess, all-correct win, final-turn draw,
ordinary advance). -/
lemma submitTurn_ok_inv (env : XEnv) (s : GameState) (caller : Nat)
    (g el ix pi pf : List Nat) (s' : GameState) (ev : List HubCall)
    (hok : submitTurn env s caller g el ix pi pf = (s', some (.ok ev))) :
    ∃ d t p1 p2,
      s.phase = some PHASE_ACTIVE ∧ s.deadline = some d ∧
      env.timestamp ≤ d ∧ s.turn = some t ∧
      s.player1 = some p1 ∧ s.player2 = some p2 ∧
      resolveCallerSimple env caller = (if t % 2 = 1 then p1 else p2) ∧
      ((t = 1 ∧ doVerifyGuess env.poseidon2 g el ix = some (.ok ()) ∧
        ev = [] ∧ s' = turn1State env s d g) ∨
       (t ≠ 1 ∧ ∃ com lg,
        (if resolveCallerSimple env caller = p1 then s.commitment1
         else s.commitment2) = some com ∧
        s.lastGuess = some lg ∧
        com = extractCommitmentFromPi pi ∧
        piLettersMatch pi lg = some true ∧
        doVerifyProof env pi pf = .ok () ∧
        (((extractResults pi).all (fun r => r = 2) = true ∧ ev = [] ∧
          s' = { s with lastResults := some (extractResults pi),
                        phase := some PHASE_REVEAL,
                        winner := some (if resolveCallerSimple env caller = p1
                                        then p2 else p1) }) ∨
         ((extractResults pi).all (fun r => r = 2) = false ∧
          t = MAX_TURNS ∧ ev = [HubCall.endGame false] ∧
          s' = { s with lastResults := some (extractResults pi),
                        phase := some PHASE_DRAW,
                        p1Revealed := some false,
                        p2Revealed := some false }) ∨
         ((extractResults pi).all (fun r => r = 2) = false ∧
          t ≠ MAX_TURNS ∧
          doVerifyGuess env.poseidon2 g el ix = some (.ok ()) ∧ ev = [] ∧
          s' = advanceState env s (resolveCallerSimple env caller)
                 p1 p2 t d g pi)))) := by
  cases hphase : s.phase with
  | none => simp [submitTurn, hphase] at hok
  | some ph =>
  by_cases hph : ph = PHASE_ACTIVE
  case neg => simp [submitTurn, hphase, hph] at hok
  subst hph
  cases hdead : s.deadline with
  | none => simp [submitTurn, hphase, hdead] at hok
  | some d =>
  by_cases hts : env.timestamp > d
  case pos => simp [submitTurn, hphase, hdead, hts] at hok
  cases hturn : s.turn with
  | none => simp [submitTurn, hphase, hdead, hts, hturn] at hok
  | some t =>
  cases hp1 : s.player1 with
  | none => simp [submitTurn, hphase, hdead, hts, hturn, hp1] at hok
  | some p1 =>
  cases hp2 : s.player2 with
  | none => simp [submitTurn, hphase, hdead, hts, hturn, hp1, hp2] at hok
  | some p2 =>
  by_cases hpar : resolveCallerSimple env caller =
      (if t % 2 = 1 then p1 else p2)
  case neg =>
    simp [submitTurn, hphase, hdead, hts, hturn, hp1, hp2, hpar] at hok
  refine ⟨d, t, p1, p2, rfl, rfl, Nat.le_of_not_lt hts, rfl, rfl, rfl,
    hpar, ?_⟩
  by_cases ht1 : t = 1
  · subst ht1
    have hrc : resolveCallerSimple env caller = p1 := by simpa using hpar
    cases hg : doVerifyGuess env.poseidon2 g el ix with
    | none =>
        simp [submitTurn, hphase, hdead, hts, hturn, hp1, hp2, hrc,
          hg] at hok
    | some r =>
      cases r with
      | error e =>
          simp [submitTurn, hphase, hdead, hts, hturn, hp1, hp2, hrc,
            hg] at hok
      | ok u =>
          cases u
          left
          simp [submitTurn, hphase, hdead, hts, hturn, hp1, hp2, hrc,
            hg, Prod.mk.injEq] at hok
          refine ⟨rfl, rfl, hok.2, ?_⟩
          rw [← hok.1]
          simp [turn1State, hphase, hp1, hp2]
  · right
    cases hcom : (if resolveCallerSimple env caller = p1 then s.commitment1
        else s.commitment2) with
    | none =>
        simp [submitTurn, hphase, hdead, hts, hturn, hp1, hp2, hpar.symm,
          ht1, hcom] at hok
    | some com =>
    cases hlg : s.lastGuess with
    | none =>
        simp [submitTurn, hphase, hdead, hts, hturn, hp1, hp2, hpar.symm,
          ht1, hcom, hlg] at hok
    | some lg =>
    by_cases hce : com = extractCommitmentFromPi pi
    case neg =>
      simp [submitTurn, hphase, hdead, hts, hturn, hp1, hp2, hpar.symm,
        ht1, hcom, hlg, hce] at hok
    cases hlm : piLettersMatch pi lg with
    | none =>
        simp [submitTurn, hphase, hdead, hts, hturn, hp1, hp2, hpar.symm,
          ht1, hcom, hlg, hce, hlm] at hok
    | some b =>
    cases b with
    | false =>
        simp [submitTurn, hphase, hdead, hts, hturn, hp1, hp2, hpar.symm,
          ht1, hcom, hlg, hce, hlm] at hok
    | true =>
    cases hvp : doVerifyProof env pi pf with
    | error e =>
        simp [submitTurn, hphase, hdead, hts, hturn, hp1, hp2, hpar.symm,
          ht1, hcom, hlg, hce, hlm, hvp] at hok
    | ok u =>
    cases u
    refine ⟨ht1, com, lg, rfl, rfl, hce, hlm, rfl, ?_⟩
    by_cases hall : (extractResults pi).all (fun r => r = 2) = true
    · left
      simp [submitTurn, hphase, hdead, hts, hturn, hp1, hp2, hpar.symm,
        ht1, hcom, hlg, hce, hlm, hvp, hall, Prod.mk.injEq] at hok
      refine ⟨hall, hok.2, ?_⟩
      rw [← hok.1]
    · by_cases ht13 : t = MAX_TURNS
      · right; left
        subst ht13
        have hrc : resolveCallerSimple env caller = p1 := by
          simpa [MAX_TURNS] using hpar
        have hcom1 : s.commitment1 = some com := by
          rw [hrc] at hcom
          simpa using hcom
        simp [submitTurn, hphase, hdead, hts, hturn, hp1, hp2, hrc,
          hcom1, hlg, hce, hlm, hvp, hall, MAX_TURNS,
          Prod.mk.injEq] at hok
        refine ⟨by simpa using hall, rfl, hok.2.symm, ?_⟩
        rw [← hok.1]
        simp [hcom1, hce, MAX_TURNS]
      · right; right
        cases hg : doVerifyGuess env.poseidon2 g el ix with
        | none =>
            simp [submitTurn, hphase, hdead, hts, hturn, hp1, hp2,
              hpar.symm, ht1, hcom, hlg, hce, hlm, hvp, hall, ht13,
              hg] at hok
        | some r =>
          cases r with
          | error e =>
              simp [submitTurn, hphase, hdead, hts, hturn, hp1, hp2,
                hpar.symm, ht1, hcom, hlg, hce, hlm, hvp, hall, ht13,
                hg] at hok
          | ok u =>
              cases u
              by_cases hc1 : resolveCallerSimple env caller = p1
              · have hcom1 : s.commitment1 = some com := by
                  rw [hc1] at hcom
                  simpa using hcom
                simp [submitTurn, hphase, hdead, hts, hturn, hp1, hp2,
                  hpar.symm, ht1, hc1, hcom1, hlg, hce, hlm, hvp, hall,
                  ht13, hg, Prod.mk.injEq] at hok
                refine ⟨by simpa using hall, ht13, rfl, hok.2, ?_⟩
                rw [← hok.1]
                simp [advanceState, hc1, hphase, hp1, hp2, hturn,
                  hcom1, hce]
              · have hcom2 : s.commitment2 = some com := by
                  rw [if_neg hc1] at hcom
                  exact hcom
                simp [submitTurn, hphase, hdead, hts, hturn, hp1, hp2,
                  hpar.symm, ht1, hc1, hcom2, hlg, hce, hlm, hvp, hall,
                  ht13, hg, Prod.mk.injEq] at hok
                refine ⟨by simpa using hall, ht13, rfl, hok.2, ?_⟩
                rw [← hok.1]
                simp [advanceState, hc1, hphase, hp1, hp2, hturn,
                  hcom2, hce]

/-- C2: in phase ACTIVE, `submit_turn` succeeds only when the resolved
caller is player1 on an odd turn or player2 on an even turn; a resolved
caller that is not the expected player receives `NotYourTurn` and the
committed storage is unchanged. -/
theorem submit_turn_parity (env : XEnv) (s : GameState) (caller : Nat)
    (g el ix pi pf : List Nat) (t p1 p2 : Nat)
    (hphase : s.phase = some PHASE_ACTIVE) (hturn : s.turn = some t)
    (hp1 : s.player1 = some p1) (hp2 : s.player2 = some p2) :
    (∀ s' ev, submitTurn env s caller g el ix pi pf = (s', some (.ok ev)) →
      ((t % 2 = 1 ∧ resolveCallerSimple env caller = p1) ∨
       (t % 2 = 0 ∧ resolveCallerSimple env caller = p2))) ∧
    (∀ d, s.deadline = some d → env.timestamp ≤ d →
      resolveCallerSimple env caller ≠ (if t % 2 = 1 then p1 else p2) →
      (submitTurn env s caller g el ix pi pf).2 =
        some (.error .NotYourTurn) ∧
      hostState s (submitTurn env s caller g el ix pi pf) = s) := by
  constructor
  · intro s' ev hok
    obtain ⟨d', t', p1', p2', _, _, _, hturn', hp1', hp2', hpar, _⟩ :=
      submitTurn_ok_inv env s caller g el ix pi pf s' ev hok
    rw [hturn] at hturn'
    rw [hp1] at hp1'
    rw [hp2] at hp2'
    obtain rfl := Option.some_injective _ hturn'
    obtain rfl := Option.some_injective _ hp1'
    obtain rfl := Option.some_injective _ hp2'
    by_cases hodd : t % 2 = 1
    · exact Or.inl ⟨hodd, by rwa [if_pos hodd] at hpar⟩
    · exact Or.inr ⟨Nat.mod_two_ne_one.mp hodd,
        by rwa [if_neg hodd] at hpar⟩
  · intro d hdead hts hne
    have hnl : ¬ env.timestamp > d := by omega
    constructor
    · simp [submitTurn, hphase, hdead, hnl, hturn, hp1, hp2, hne]
    · simp [hostState, submitTurn, hphase, hdead, hnl, hturn, hp1, hp2,
        hne]

/-- Witness for C2 at a concrete even-turn state where player1 calls. -/
theorem submit_turn_parity_witness :
    (submitTurn
      ⟨50, fun _ => none, 0, 1, true, true, fun _ _ => true, true, true,
       fun _ _ => true, fun a b => a + b⟩
      ⟨some PHASE_ACTIVE, some 1, some 2, none, none, some 2, some 100,
       none, none, none, some 0, some 5, none, none, none, none, none,
       none, none, none⟩
      1 [] [] [] [] []).2 = some (.error .NotYourTurn) := by
  exact ((submit_turn_parity
    ⟨50, fun _ => none, 0, 1, true, true, fun _ _ => true, true, true,
     fun _ _ => true, fun a b => a + b⟩
    ⟨some PHASE_ACTIVE, some 1, some 2, none, none, some 2, some 100,
     none, none, none, some 0, some 5, none, none, none, none, none,
     none, none, none⟩
    1 [] [] [] [] [] 2 1 2 rfl rfl rfl rfl).2 100 rfl (by decide)
    (by decide)).1

/-- C3: a successful `submit_turn` at turn 2 or later whose five extracted
feedback codes all equal the exact-match sentinel 2 stores the codes as
`last_results`, declares the caller's opponent winner, moves the phase to
REVEAL, and advances neither the turn counter, the clocks, nor the
deadline. -/
theorem submit_turn_all_correct_reveal (env : XEnv) (s s' : GameState)
    (caller : Nat) (g el ix pi pf : List Nat) (ev : List HubCall)
    (t p1 p2 : Nat)
    (hturn : s.turn = some t) (ht2 : 2 ≤ t)
    (hp1 : s.player1 = some p1) (hp2 : s.player2 = some p2)
    (hall : (extractResults pi).all (fun r => r = 2) = true)
    (hok : submitTurn env s caller g el ix pi pf = (s', some (.ok ev))) :
    s'.winner = some (if resolveCallerSimple env caller = p1 then p2
                      else p1) ∧
    s'.phase = some PHASE_REVEAL ∧
    s'.lastResults = some (extractResults pi) ∧
    s'.turn = s.turn ∧ s'.deadline = s.deadline ∧
    s'.p1Time = s.p1Time ∧ s'.p2Time = s.p2Time := by
  obtain ⟨d', t', p1', p2', _, _, _, hturn', hp1', hp2', _, hbr⟩ :=
    submitTurn_ok_inv env s caller g el ix pi pf s' ev hok
  rw [hturn] at hturn'
  rw [hp1] at hp1'
  rw [hp2] at hp2'
  obtain rfl := Option.some_injective _ hturn'
  obtain rfl := Option.some_injective _ hp1'
  obtain rfl := Option.some_injective _ hp2'
  rcases hbr with ⟨h1, _⟩ | ⟨_, com, lg, _, _, _, _, _, hfin⟩
  · omega
  rcases hfin with ⟨_, _, rfl⟩ | ⟨hf, _⟩ | ⟨hf, _⟩
  · simp [hturn]
  · rw [hall] at hf
    cases hf
  · rw [hall] at hf
    cases hf

/-- A 32-byte zero commitment used in concrete test vectors. -/
def zeros32 : List Nat := List.replicate 32 0

/-- The word "aaaaa" used in concrete test vectors. -/
def aaaaa : List Nat := List.replicate 5 97

/-- A public-input buffer whose commitment bytes are all zero, whose five
letter fields all carry the letter a (0x61), and whose five feedback
fields all carry the exact-match sentinel 2. -/
def piAllCorrect : List Nat :=
  (List.range 352).map (fun j =>
    if j % 32 = 31 then
      (if j < 32 then 0 else if j < 192 then 97 else 2)
    else 0)

/-- A concrete environment: time 50, no session keys, 1-byte proofs, an
external verifier that accepts everything. -/
def envAccept : XEnv :=
  ⟨50, fun _ => none, 0, 1, true, true, fun _ _ => true, true, true,
   fun _ _ => true, fun a b => a + b⟩

/-- A concrete ACTIVE game at turn 2: players 1 and 2, zero commitments,
last guess "aaaaa", deadline 100, stake 5. -/
def sTurn2 : GameState :=
  ⟨some PHASE_ACTIVE, some 1, some 2, some zeros32, some zeros32, some 2,
   some 100, some aaaaa, none, none, some 0, some 5, none, none, none,
   none, none, none, none, none⟩

/-- The expected committed state after player2's all-correct judging move
from `sTurn2`. -/
def sTurn2After : GameState :=
  ⟨some PHASE_REVEAL, some 1, some 2, some zeros32, some zeros32, some 2,
   some 100, some aaaaa, some [2, 2, 2, 2, 2], some 1, some 0, some 5,
   none, none, none, none, none, none, none, none⟩

/-- Witness for C3: player2 judges player1's guess all-correct at turn 2;
player1 becomes winner and the phase moves to REVEAL. -/
theorem submit_turn_all_correct_reveal_witness :
    submitTurn envAccept sTurn2 2 [] [] [] piAllCorrect [0] =
      (sTurn2After, some (.ok [])) ∧
    sTurn2After.winner = some 1 ∧
    sTurn2After.phase = some PHASE_REVEAL := by
  have hok : submitTurn envAccept sTurn2 2 [] [] [] piAllCorrect [0] =
      (sTurn2After, some (.ok [])) := by rfl
  have h := submit_turn_all_correct_reveal envAccept sTurn2 sTurn2After
    2 [] [] [] piAllCorrect [0] [] 2 1 2 rfl (by decide) rfl rfl
    (by decide) hok
  exact ⟨hok, by simpa [resolveCallerSimple, envAccept] using h.1, h.2.1⟩

lemma submitTurn_final_guess_independent (env : XEnv) (s : GameState)
    (caller : Nat) (pi pf : List Nat) (hturn : s.turn = some MAX_TURNS) :
    ∀ g1 e1 i1 g2 e2 i2,
      submitTurn env s caller g1 e1 i1 pi pf =
      submitTurn env s caller g2 e2 i2 pi pf := by
  intro g1 e1 i1 g2 e2 i2
  cases hphase : s.phase with
  | none => simp [submitTurn, hphase]
  | some ph =>
  by_cases hph : ph = PHASE_ACTIVE
  case neg => simp [submitTurn, hphase, hph]
  subst hph
  cases hdead : s.deadline with
  | none => simp [submitTurn, hphase, hdead]
  | some d =>
  by_cases hts : env.timestamp > d
  case pos => simp [submitTurn, hphase, hdead, hts]
  cases hp1 : s.player1 with
  | none => simp [submitTurn, hphase, hdead, hts, hturn, hp1]
  | some p1 =>
  cases hp2 : s.player2 with
  | none => simp [submitTurn, hphase, hdead, hts, hturn, hp1, hp2]
  | some p2 =>
  by_cases hpar : resolveCallerSimple env caller =
      (if MAX_TURNS % 2 = 1 then p1 else p2)
  case neg =>
    simp [submitTurn, hphase, hdead, hts, hturn, hp1, hp2, hpar]
  have hrc : resolveCallerSimple env caller = p1 := by
    simpa [MAX_TURNS] using hpar
  cases hcom : s.commitment1 with
  | none =>
      simp [submitTurn, hphase, hdead, hts, hturn, hp1, hp2, hrc, hcom,
        MAX_TURNS]
  | some com =>
  cases hlg : s.lastGuess with
  | none =>
      simp [submitTurn, hphase, hdead, hts, hturn, hp1, hp2, hrc, hcom,
        hlg, MAX_TURNS]
  | some lg =>
  by_cases hce : com = extractCommitmentFromPi pi
  case neg =>
    simp [submitTurn, hphase, hdead, hts, hturn, hp1, hp2, hrc, hcom,
      hlg, hce, MAX_TURNS]
  cases hlm : piLettersMatch pi lg with
  | none =>
      simp [submitTurn, hphase, hdead, hts, hturn, hp1, hp2, hrc, hcom,
        hlg, hce, hlm, MAX_TURNS]
  | some b =>
  cases b with
  | false =>
      simp [submitTurn, hphase, hdead, hts, hturn, hp1, hp2, hrc, hcom,
        hlg, hce, hlm, MAX_TURNS]
  | true =>
  cases hvp : doVerifyProof env pi pf with
  | error e =>
      simp [submitTurn, hphase, hdead, hts, hturn, hp1, hp2, hrc, hcom,
        hlg, hce, hlm, hvp, MAX_TURNS]
  | ok u =>
  cases u
  by_cases hall : (extractResults pi).all (fun r => r = 2) = true
  · simp [submitTurn, hphase, hdead, hts, hturn, hp1, hp2, hrc, hcom,
      hlg, hce, hlm, hvp, hall, MAX_TURNS]
  · simp [submitTurn, hphase, hdead, hts, hturn, hp1, hp2, hrc, hcom,
      hlg, hce, hlm, hvp, hall, MAX_TURNS]

lemma submitTurn_turn_le (env : XEnv) (s2 s2' : GameState) (c2 : Nat)
    (g3 e3 i3 pi3 pf3 : List Nat) (ev2 : List HubCall) (t t2 : Nat)
    (ht : s2.turn = some t) (hle : t ≤ MAX_TURNS)
    (hok : submitTurn env s2 c2 g3 e3 i3 pi3 pf3 = (s2', some (.ok ev2)))
    (ht2 : s2'.turn = some t2) : t2 ≤ MAX_TURNS := by
  obtain ⟨d', t', p1', p2', _, _, _, hturn', _, _, _, hbr⟩ :=
    submitTurn_ok_inv env s2 c2 g3 e3 i3 pi3 pf3 s2' ev2 hok
  rw [ht] at hturn'
  obtain rfl := Option.some_injective _ hturn'
  rcases hbr with ⟨_, _, _, rfl⟩ | ⟨hne1, com, lg, _, _, _, _, _, hfin⟩
  · simp [turn1State] at ht2
    simp [MAX_TURNS]
    omega
  rcases hfin with ⟨_, _, rfl⟩ | ⟨_, _, _, rfl⟩ | ⟨_, hne13, _, _, rfl⟩
  · simp [ht] at ht2
    omega
  · simp [ht] at ht2
    omega
  · by_cases hc : resolveCallerSimple env c2 = p1'
    · simp [advanceState, hc] at ht2
      simp [MAX_TURNS] at hle hne13 ⊢
      omega
    · simp [advanceState, hc] at ht2
      simp [MAX_TURNS] at hle hne13 ⊢
      omega

/-- C7: a successful `submit_turn` at turn MAX_TURNS whose judged feedback
is not all-correct accepts and validates no new guess (the outcome is the
same for any supplied guess and Merkle path), moves the phase to DRAW,
resets both reveal flags, notifies the hub of a no-winner outcome, and
leaves `last_guess` and the turn counter unchanged; moreover a successful
move never pushes the turn counter beyond MAX_TURNS. -/
theorem final_turn_draw (env : XEnv) (s s' : GameState) (caller : Nat)
    (g el ix pi pf : List Nat) (ev : List HubCall)
    (hturn : s.turn = some MAX_TURNS)
    (hnall : (extractResults pi).all (fun r => r = 2) = false)
    (hok : submitTurn env s caller g el ix pi pf = (s', some (.ok ev))) :
    s'.phase = some PHASE_DRAW ∧ s'.p1Revealed = some false ∧
    s'.p2Revealed = some false ∧ ev = [HubCall.endGame false] ∧
    s'.lastGuess = s.lastGuess ∧ s'.turn = s.turn ∧
    (∀ g2 e2 i2, submitTurn env s caller g2 e2 i2 pi pf =
      (s', some (.ok ev))) ∧
    (∀ (t t2 : Nat) (s2 s2' : GameState) (c2 : Nat)
        (g3 e3 i3 pi3 pf3 : List Nat) (ev2 : List HubCall),
      s2.turn = some t → t ≤ MAX_TURNS →
      submitTurn env s2 c2 g3 e3 i3 pi3 pf3 = (s2', some (.ok ev2)) →
      s2'.turn = some t2 → t2 ≤ MAX_TURNS) := by
  obtain ⟨d', t', p1', p2', _, _, _, hturn', _, _, _, hbr⟩ :=
    submitTurn_ok_inv env s caller g el ix pi pf s' ev hok
  rw [hturn] at hturn'
  obtain rfl := Option.some_injective _ hturn'
  have hmain : s'.phase = some PHASE_DRAW ∧ s'.p1Revealed = some false ∧
      s'.p2Revealed = some false ∧ ev = [HubCall.endGame false] ∧
      s'.lastGuess = s.lastGuess ∧ s'.turn = s.turn := by
    rcases hbr with ⟨h1, _⟩ | ⟨_, com, lg, _, hlg, _, _, _, hfin⟩
    · simp [MAX_TURNS] at h1
    rcases hfin with ⟨hf, _⟩ | ⟨_, _, hev, rfl⟩ | ⟨_, hne13, _⟩
    · rw [hnall] at hf
      cases hf
    · simp [hev, hlg]
    · exact absurd rfl hne13
  refine ⟨hmain.1, hmain.2.1, hmain.2.2.1, hmain.2.2.2.1,
    hmain.2.2.2.2.1, hmain.2.2.2.2.2, ?_, ?_⟩
  · intro g2 e2 i2
    exact (submitTurn_final_guess_independent env s caller pi pf hturn
      g2 e2 i2 g el ix).trans hok
  · intro t t2 s2 s2' c2 g3 e3 i3 pi3 pf3 ev2 h1 h2 h3 h4
    exact submitTurn_turn_le env s2 s2' c2 g3 e3 i3 pi3 pf3 ev2 t t2
      h1 h2 h3 h4

lemma doVerifyProof_no_expired (env : XEnv) (pi pf : List Nat) :
    doVerifyProof env pi pf ≠ .error .GameExpired := by
  unfold doVerifyProof
  split_ifs <;> simp

lemma doVerifyGuess_no_expired (h : Nat → Nat → Nat)
    (w e i : List Nat) :
    doVerifyGuess h w e i ≠ some (.error .GameExpired) := by
  unfold doVerifyGuess
  split_ifs <;> try simp
  cases merkleFold h (leafValue w) e i with
  | none => simp
  | some v => by_cases hv : v = MERKLE_ROOT <;> simp [hv]

/-- C5: on every accepted move that advances the turn (with distinct
players and a deadline consistent with the 5-minute allowance), the
mover's new banked time equals the prior deadline minus the current time
and the new deadline equals the current time plus the opponent's banked
time; an attempt strictly after the deadline fails with `GameExpired`,
while an attempt at exactly the deadline never produces `GameExpired`. -/
theorem chess_clock_banking (env : XEnv) (s : GameState) (caller : Nat)
    (g el ix pi pf : List Nat) (d : Nat)
    (hdead : s.deadline = some d) :
    (∀ (s' : GameState) (ev : List HubCall) (p1 p2 : Nat),
      s.player1 = some p1 → s.player2 = some p2 → p1 ≠ p2 →
      TURN_DURATION_SECS ≤ d → d ≤ env.timestamp + TURN_DURATION_SECS →
      submitTurn env s caller g el ix pi pf = (s', some (.ok ev)) →
      s'.turn ≠ s.turn →
      ((resolveCallerSimple env caller = p1 →
        s'.p1Time = some (d - env.timestamp) ∧
        s'.deadline = some (env.timestamp +
          s.p2Time.getD TURN_DURATION_SECS)) ∧
       (resolveCallerSimple env caller = p2 →
        s'.p2Time = some (d - env.timestamp) ∧
        s'.deadline = some (env.timestamp +
          s.p1Time.getD TURN_DURATION_SECS)))) ∧
    (s.phase = some PHASE_ACTIVE → env.timestamp > d →
      (submitTurn env s caller g el ix pi pf).2 =
        some (.error .GameExpired)) ∧
    (env.timestamp = d →
      (submitTurn env s caller g el ix pi pf).2 ≠
        some (.error .GameExpired)) := by
  refine ⟨?_, ?_, ?_⟩
  · intro s' ev p1 p2 hp1 hp2 hnepl hd1 hd2 hok hchg
    obtain ⟨d', t', p1', p2', _, hdead', hts, hturn', hp1', hp2', hpar,
      hbr⟩ := submitTurn_ok_inv env s caller g el ix pi pf s' ev hok
    rw [hdead] at hdead'
    rw [hp1] at hp1'
    rw [hp2] at hp2'
    obtain rfl := Option.some_injective _ hdead'
    obtain rfl := Option.some_injective _ hp1'
    obtain rfl := Option.some_injective _ hp2'
    rcases hbr with ⟨ht1, _, _, rfl⟩ | ⟨_, com, lg, _, _, _, _, _, hfin⟩
    · subst ht1
      have hrc : resolveCallerSimple env caller = p1 := by
        simpa using hpar
      constructor
      · intro _
        constructor
        · simp only [turn1State]
          congr 1
          have h0 : TURN_DURATION_SECS ≤ d := hd1
          have h2 : d ≤ env.timestamp + TURN_DURATION_SECS := hd2
          omega
        · simp [turn1State]
      · intro hrc2
        exact absurd (hrc.symm.trans hrc2) hnepl
    · rcases hfin with ⟨_, _, rfl⟩ | ⟨_, _, _, rfl⟩ |
        ⟨_, _, _, _, rfl⟩
      · simp [hturn'] at hchg
      · simp [hturn'] at hchg
      · by_cases hc : resolveCallerSimple env caller = p1
        · refine ⟨fun _ => ?_, fun hrc2 => ?_⟩
          · constructor
            · simp [advanceState, hc]
            · simp [advanceState, hc, Ne.symm hnepl]
          · exact absurd (hc.symm.trans hrc2) hnepl
        · refine ⟨fun hrc1 => absurd hrc1 hc, fun _ => ?_⟩
          constructor
          · simp [advanceState, hc]
          · simp [advanceState, hc]
  · intro hphase hlate
    simp [submitTurn, hphase, hdead, hlate]
  · intro hts
    have hnl : ¬ env.timestamp > d := by omega
    cases hphase : s.phase with
    | none => simp [submitTurn, hphase]
    | some ph =>
    by_cases hph : ph = PHASE_ACTIVE
    case neg => simp [submitTurn, hphase, hph]
    subst hph
    cases hturn : s.turn with
    | none => simp [submitTurn, hphase, hdead, hnl, hturn]
    | some t =>
    cases hp1 : s.player1 with
    | none => simp [submitTurn, hphase, hdead, hnl, hturn, hp1]
    | some p1 =>
    cases hp2 : s.player2 with
    | none => simp [submitTurn, hphase, hdead, hnl, hturn, hp1, hp2]
    | some p2 =>
    by_cases hpar : resolveCallerSimple env caller =
        (if t % 2 = 1 then p1 else p2)
    case neg =>
      simp [submitTurn, hphase, hdead, hnl, hturn, hp1, hp2, hpar]
    by_cases ht1 : t = 1
    · subst ht1
      have hrc : resolveCallerSimple env caller = p1 := by
        simpa using hpar
      cases hg : doVerifyGuess env.poseidon2 g el ix with
      | none =>
          simp [submitTurn, hphase, hdead, hnl, hturn, hp1, hp2, hrc, hg]
      | some r =>
        cases r with
        | error e =>
            have he : e ≠ Error.GameExpired := fun hE =>
              doVerifyGuess_no_expired env.poseidon2 g el ix (hE ▸ hg)
            simp [submitTurn, hphase, hdead, hnl, hturn, hp1, hp2, hrc,
              hg, he]
        | ok u =>
            cases u
            simp [submitTurn, hphase, hdead, hnl, hturn, hp1, hp2, hrc,
              hg]
    · cases hcom : (if resolveCallerSimple env caller = p1 then
          s.commitment1 else s.commitment2) with
      | none =>
          simp [submitTurn, hphase, hdead, hnl, hturn, hp1, hp2,
            hpar.symm, ht1, hcom]
      | some com =>
      cases hlg : s.lastGuess with
      | none =>
          simp [submitTurn, hphase, hdead, hnl, hturn, hp1, hp2,
            hpar.symm, ht1, hcom, hlg]
      | some lg =>
      by_cases hce : com = extractCommitmentFromPi pi
      case neg =>
        simp [submitTurn, hphase, hdead, hnl, hturn, hp1, hp2, hpar.symm,
          ht1, hcom, hlg, hce]
      cases hlm : piLettersMatch pi lg with
      | none =>
          simp [submitTurn, hphase, hdead, hnl, hturn, hp1, hp2,
            hpar.symm, ht1, hcom, hlg, hce, hlm]
      | some b =>
      cases b with
      | false =>
          simp [submitTurn, hphase, hdead, hnl, hturn, hp1, hp2,
            hpar.symm, ht1, hcom, hlg, hce, hlm]
      | true =>
      cases hvp : doVerifyProof env pi pf with
      | error e =>
          have he : e ≠ Error.GameExpired := fun hE =>
            doVerifyProof_no_expired env pi pf (hE ▸ hvp)
          simp [submitTurn, hphase, hdead, hnl, hturn, hp1, hp2,
            hpar.symm, ht1, hcom, hlg, hce, hlm, hvp, he]
      | ok u =>
      cases u
      by_cases hall : (extractResults pi).all (fun r => r = 2) = true
      · simp [submitTurn, hphase, hdead, hnl, hturn, hp1, hp2, hpar.symm,
          ht1, hcom, hlg, hce, hlm, hvp, hall]
      · by_cases ht13 : t = MAX_TURNS
        · subst ht13
          have hrc : resolveCallerSimple env caller = p1 := by
            simpa [MAX_TURNS] using hpar
          have hcom1 : s.commitment1 = some com := by
            rw [hrc] at hcom
            simpa using hcom
          simp [submitTurn, hphase, hdead, hnl, hturn, hp1, hp2, hrc,
            hcom1, hlg, hce, hlm, hvp, hall, MAX_TURNS]
        · cases hg : doVerifyGuess env.poseidon2 g el ix with
          | none =>
              simp [submitTurn, hphase, hdead, hnl, hturn, hp1, hp2,
                hpar.symm, ht1, hcom, hlg, hce, hlm, hvp, hall, ht13, hg]
          | some r =>
            cases r with
            | error e =>
                have he : e ≠ Error.GameExpired := fun hE =>
                  doVerifyGuess_no_expired env.poseidon2 g el ix
                    (hE ▸ hg)
                simp [submitTurn, hphase, hdead, hnl, hturn, hp1, hp2,
                  hpar.symm, ht1, hcom, hlg, hce, hlm, hvp, hall, ht13,
                  hg, he]
            | ok u =>
                cases u
                simp [submitTurn, hphase, hdead, hnl, hturn, hp1, hp2,
                  hpar.symm, ht1, hcom, hlg, hce, hlm, hvp, hall, ht13,
                  hg]

/-- A public-input buffer like `piAllCorrect` but whose five feedback
fields carry 0 (not the exact-match sentinel). -/
def piNoneCorrect : List Nat :=
  (List.range 352).map (fun j =>
    if j % 32 = 31 then
      (if j < 32 then 0 else if j < 192 then 97 else 0)
    else 0)

/-- An environment whose hash primitive maps every pair to the Merkle
root, so one-step inclusion paths always validate. -/
def envRootHash : XEnv :=
  ⟨50, fun _ => none, 0, 1, true, true, fun _ _ => true, true, true,
   fun _ _ => true, fun _ _ => MERKLE_ROOT⟩

/-- A concrete ACTIVE game at turn 2 with banked clocks 250/280 and
deadline 320. -/
def sClock : GameState :=
  ⟨some PHASE_ACTIVE, some 1, some 2, some zeros32, some zeros32, some 2,
   some 320, some aaaaa, none, none, some 0, some 5, none, none,
   some 250, some 280, none, none, none, none⟩

/-- The committed state after player2's ordinary move from `sClock`. -/
def sClockAfter : GameState :=
  ⟨some PHASE_ACTIVE, some 1, some 2, some zeros32, some zeros32, some 3,
   some 300, some aaaaa, some [0, 0, 0, 0, 0], none, some 0, some 5,
   none, none, some 250, some 270, none, none, none, none⟩

/-- Witness for C5: player2 moves at time 50 against deadline 320; their
clock is rebanked to 270 and the deadline becomes 50 + 250. -/
theorem chess_clock_banking_witness :
    submitTurn envRootHash sClock 2 aaaaa [0] [0] piNoneCorrect [0] =
      (sClockAfter, some (.ok [])) ∧
    sClockAfter.p2Time = some 270 ∧ sClockAfter.deadline = some 300 := by
  have hok : submitTurn envRootHash sClock 2 aaaaa [0] [0] piNoneCorrect
      [0] = (sClockAfter, some (.ok [])) := by rfl
  have h := ((chess_clock_banking envRootHash sClock 2 aaaaa [0] [0]
    piNoneCorrect [0] 320 rfl).1 sClockAfter [] 1 2 rfl rfl (by decide)
    (by decide) (by decide) hok (by decide)).2 rfl
  exact ⟨hok, h.1, h.2⟩

/-- A concrete ACTIVE game at the final turn MAX_TURNS. -/
def sTurn13 : GameState :=
  ⟨some PHASE_ACTIVE, some 1, some 2, some zeros32, some zeros32,
   some 13, some 100, some aaaaa, none, none, some 0, some 5, none, none,
   some 250, some 280, none, none, none, none⟩

/-- The committed state after the final-turn verify-only move from
`sTurn13` with a not-all-correct judgement. -/
def sTurn13After : GameState :=
  ⟨some PHASE_DRAW, some 1, some 2, some zeros32, some zeros32, some 13,
   some 100, some aaaaa, some [0, 0, 0, 0, 0], none, some 0, some 5,
   none, none, some 250, some 280, some false, some false, none, none⟩

/-- Witness for C7: player1's verify-only move at turn 13 with feedback
codes 0 sends the game to DRAW and resets the reveal flags. -/
theorem final_turn_draw_witness :
    submitTurn envAccept sTurn13 1 [] [] [] piNoneCorrect [0] =
      (sTurn13After, some (.ok [HubCall.endGame false])) ∧
    sTurn13After.phase = some PHASE_DRAW ∧
    sTurn13After.p1Revealed = some false := by
  have hok : submitTurn envAccept sTurn13 1 [] [] [] piNoneCorrect [0] =
      (sTurn13After, some (.ok [HubCall.endGame false])) := by rfl
  have h := final_turn_draw envAccept sTurn13 sTurn13After 1 [] [] []
    piNoneCorrect [0] [HubCall.endGame false] rfl (by decide) hok
  exact ⟨hok, h.1, h.2.1⟩


lemma withdraw_error_inv (env : XEnv) (s s' : GameState) (c : Nat)
    (e : Error) (h : withdraw env s c = (s', .error e)) : s' = s := by
  unfold withdraw at h
  dsimp only at h
  iterate 14
    all_goals try split at h
    all_goals try dsimp only at h
  all_goals
    first
    | exact (congrArg Prod.fst h).symm
    | exact absurd (congrArg Prod.snd h) (by simp)

lemma claimTimeout_error_inv (env : XEnv) (s s' : GameState) (c : Nat)
    (w pi pf : List Nat) (e : Error)
    (h : claimTimeout env s c w pi pf = (s', some (.error e))) :
    s' = s := by
  unfold claimTimeout at h
  dsimp only at h
  iterate 14
    all_goals try split at h
    all_goals try dsimp only at h
  all_goals
    first
    | exact (congrArg Prod.fst h).symm
    | exact absurd (congrArg Prod.snd h) (by simp)

lemma withdraw_ok_inv (env : XEnv) (s s' : GameState) (c : Nat) (p : Int)
    (h : withdraw env s c = (s', .ok p)) :
    ∃ ph p1 p2, s.phase = some ph ∧
      (ph = PHASE_FINALIZED ∨ ph = PHASE_DRAW) ∧
      s.player1 = some p1 ∧ s.player2 = some p2 ∧
      s.escrowToken ≠ none ∧
      (resolveCallerSimple env c = p1 ∨ resolveCallerSimple env c = p2) ∧
      (if resolveCallerSimple env c = p1 then s.p1Withdrawn
       else s.p2Withdrawn).getD false = false ∧
      ((ph = PHASE_FINALIZED ∧
        s.winner = some (resolveCallerSimple env c) ∧
        p = s.escrowAmount.getD 0 * 2) ∨
       (ph = PHASE_DRAW ∧
        (if resolveCallerSimple env c = p1 then s.p1Revealed
         else s.p2Revealed).getD false = true ∧
        p = s.escrowAmount.getD 0)) ∧
      s' = (if resolveCallerSimple env c = p1 then
              { s with p1Withdrawn := some true }
            else { s with p2Withdrawn := some true }) := by
  cases hphase : s.phase with
  | none => simp [withdraw, hphase] at h
  | some ph =>
  by_cases hpd : ph ≠ PHASE_FINALIZED ∧ ph ≠ PHASE_DRAW
  case pos => simp [withdraw, hphase, hpd] at h
  cases hp1 : s.player1 with
  | none => simp [withdraw, hphase, hpd, hp1] at h
  | some p1 =>
  cases hp2 : s.player2 with
  | none => simp [withdraw, hphase, hpd, hp1, hp2] at h
  | some p2 =>
  have hphd : ph = PHASE_FINALIZED ∨ ph = PHASE_DRAW := by
    rcases not_and_or.mp hpd with hc | hc
    · exact Or.inl (not_not.mp hc)
    · exact Or.inr (not_not.mp hc)
  by_cases hip1 : resolveCallerSimple env c = p1
  · by_cases hwd : s.p1Withdrawn.getD false = true
    case pos =>
      simp [withdraw, hphase, hpd, hp1, hp2, hip1, hwd] at h
    have hwd' : s.p1Withdrawn.getD false = false := by simpa using hwd
    cases htok : s.escrowToken with
    | none => simp [withdraw, hphase, hpd, hp1, hp2, hip1, hwd', htok] at h
    | some tk =>
    by_cases hfin : ph = PHASE_FINALIZED
    · subst hfin
      cases hwin : s.winner with
      | none =>
          simp [withdraw, hphase, hpd, hp1, hp2, hip1, hwd', htok,
            hwin] at h
      | some w =>
      simp [withdraw, hphase, hpd, hp1, hp2, hip1, hwd', htok, hwin] at h
      by_cases hpw : p1 = w
      case neg =>
        rw [if_neg hpw] at h
        exact absurd (congrArg Prod.snd h) (by simp)
      rw [if_pos hpw, Prod.mk.injEq] at h
      obtain ⟨h1, h2⟩ := h
      refine ⟨PHASE_FINALIZED, p1, p2, rfl, Or.inl rfl, rfl, rfl,
        by simp, Or.inl hip1, by simp [hip1, hwd'],
        Or.inl ⟨rfl, by rw [hip1, hpw], (Except.ok.inj h2).symm⟩, ?_⟩
      rw [if_pos hip1]
      exact h1.symm
    · have hdr : ph = PHASE_DRAW := by
        rcases hphd with hc | hc
        · exact absurd hc hfin
        · exact hc
      subst hdr
      by_cases hrev : s.p1Revealed.getD false = false
      case pos =>
        simp [withdraw, hphase, hpd, hp1, hp2, hip1, hwd', htok, hfin,
          hrev] at h
      have hrev' : s.p1Revealed.getD false = true := by simpa using hrev
      simp [withdraw, hphase, hpd, hp1, hp2, hip1, hwd', htok, hfin,
        hrev'] at h
      obtain ⟨h1, h2⟩ := h
      refine ⟨PHASE_DRAW, p1, p2, rfl, Or.inr rfl, rfl, rfl,
        by simp, Or.inl hip1, by simp [hip1, hwd'],
        Or.inr ⟨rfl, by simp [hip1, hrev'], h2.symm⟩, ?_⟩
      rw [if_pos hip1]
      exact h1.symm
  · by_cases hip2 : resolveCallerSimple env c = p2
    case neg =>
      simp [withdraw, hphase, hpd, hp1, hp2, hip1, hip2] at h
    have hne : ¬ (p2 = p1) := fun he => hip1 (hip2.trans he)
    by_cases hwd : s.p2Withdrawn.getD false = true
    case pos =>
      simp [withdraw, hphase, hpd, hp1, hp2, hip2, hne, hwd] at h
    have hwd' : s.p2Withdrawn.getD false = false := by simpa using hwd
    cases htok : s.escrowToken with
    | none =>
        simp [withdraw, hphase, hpd, hp1, hp2, hip2, hne, hwd',
          htok] at h
    | some tk =>
    by_cases hfin : ph = PHASE_FINALIZED
    · subst hfin
      cases hwin : s.winner with
      | none =>
          simp [withdraw, hphase, hpd, hp1, hp2, hip2, hne, hwd', htok,
            hwin] at h
      | some w =>
      simp [withdraw, hphase, hpd, hp1, hp2, hip2, hne, hwd', htok,
        hwin] at h
      by_cases hpw : p2 = w
      case neg =>
        rw [if_neg hpw] at h
        exact absurd (congrArg Prod.snd h) (by simp)
      rw [if_pos hpw, Prod.mk.injEq] at h
      obtain ⟨h1, h2⟩ := h
      refine ⟨PHASE_FINALIZED, p1, p2, rfl, Or.inl rfl, rfl, rfl,
        by simp, Or.inr hip2, by simp [hip1, hwd'],
        Or.inl ⟨rfl, by rw [hip2, hpw], (Except.ok.inj h2).symm⟩, ?_⟩
      rw [if_neg hip1]
      exact h1.symm
    · have hdr : ph = PHASE_DRAW := by
        rcases hphd with hc | hc
        · exact absurd hc hfin
        · exact hc
      subst hdr
      by_cases hrev : s.p2Revealed.getD false = false
      case pos =>
        simp [withdraw, hphase, hpd, hp1, hp2, hip2, hne, hwd', htok,
          hfin, hrev] at h
      have hrev' : s.p2Revealed.getD false = true := by simpa using hrev
      simp [withdraw, hphase, hpd, hp1, hp2, hip2, hne, hwd', htok,
        hfin, hrev'] at h
      obtain ⟨h1, h2⟩ := h
      refine ⟨PHASE_DRAW, p1, p2, rfl, Or.inr rfl, rfl, rfl,
        by simp, Or.inr hip2, by simp [hip1, hwd'],
        Or.inr ⟨rfl, by simp [hip1, hrev'], h2.symm⟩, ?_⟩
      rw [if_neg hip1]
      exact h1.symm

/-- C8: an operation that returns an error commits no observable storage
mutation.  For `submit_turn` this is the Soroban host's transactional
semantics (`hostState` discards the writes of a failed invocation; the
body may have staged `last_results` before a later failure); `withdraw`
and `claim_timeout` perform their writes only after every fallible step,
so even their raw pre-rollback state equals the input state on error. -/
theorem errors_mutate_nothing (env : XEnv) (s : GameState) (caller : Nat)
    (g el ix pi pf w : List Nat) :
    (∀ e, (submitTurn env s caller g el ix pi pf).2 = some (.error e) →
      hostState s (submitTurn env s caller g el ix pi pf) = s) ∧
    (∀ e, (withdraw env s caller).2 = .error e →
      (withdraw env s caller).1 = s) ∧
    (∀ e, (claimTimeout env s caller w pi pf).2 = some (.error e) →
      (claimTimeout env s caller w pi pf).1 = s) := by
  refine ⟨?_, ?_, ?_⟩
  · intro e he
    simp [hostState, he]
  · intro e he
    refine withdraw_error_inv env s _ caller e ?_
    rw [← he]
  · intro e he
    refine claimTimeout_error_inv env s _ caller w pi pf e ?_
    rw [← he]

/-- Witness for C8: withdrawing from a game that does not exist errors and
leaves the (empty) storage untouched. -/
theorem errors_mutate_nothing_witness :
    (withdraw envAccept
      ⟨none, none, none, none, none, none, none, none, none, none, none,
       none, none, none, none, none, none, none, none, none⟩ 1).1 =
    ⟨none, none, none, none, none, none, none, none, none, none, none,
     none, none, none, none, none, none, none, none, none⟩ := by
  exact (errors_mutate_nothing envAccept
    ⟨none, none, none, none, none, none, none, none, none, none, none,
     none, none, none, none, none, none, none, none, none⟩
    1 [] [] [] [] [] []).2.1 .NoActiveGame rfl

/-- The largest amount player1's withdrawal slot can still pay out. -/
def slotMax1 (s : GameState) : Int :=
  match s.player1 with
  | none => 0
  | some p1 =>
      if s.phase = some PHASE_FINALIZED then
        (if s.winner = some p1 then 2 * s.escrowAmount.getD 0 else 0)
      else s.escrowAmount.getD 0

/-- The largest amount player2's withdrawal slot can still pay out (the
slot is dead when player2 coincides with player1, since such a caller is
routed to player1's slot). -/
def slotMax2 (s : GameState) : Int :=
  match s.player1, s.player2 with
  | some p1, some p2 =>
      if p2 = p1 then 0
      else if s.phase = some PHASE_FINALIZED then
        (if s.winner = some p2 then 2 * s.escrowAmount.getD 0 else 0)
      else s.escrowAmount.getD 0
  | _, _ => 0

/-- Remaining payout potential: each slot contributes while its one-shot
guard is still false. -/
def wPotential (s : GameState) : Int :=
  (if s.p1Withdrawn.getD false then 0 else slotMax1 s) +
  (if s.p2Withdrawn.getD false then 0 else slotMax2 s)

lemma slotMax1_nonneg (s : GameState)
    (ha : 0 ≤ s.escrowAmount.getD 0) : 0 ≤ slotMax1 s := by
  rcases hp1 : s.player1 with _ | p1
  · simp [slotMax1, hp1]
  · simp only [slotMax1, hp1]
    split_ifs <;> omega

lemma slotMax2_nonneg (s : GameState)
    (ha : 0 ≤ s.escrowAmount.getD 0) : 0 ≤ slotMax2 s := by
  rcases hp1 : s.player1 with _ | p1
  · simp [slotMax2, hp1]
  · rcases hp2 : s.player2 with _ | p2
    · simp [slotMax2, hp1, hp2]
    · simp only [slotMax2, hp1, hp2]
      split_ifs <;> omega

lemma wPotential_nonneg (s : GameState)
    (ha : 0 ≤ s.escrowAmount.getD 0) : 0 ≤ wPotential s := by
  have h1 := slotMax1_nonneg s ha
  have h2 := slotMax2_nonneg s ha
  unfold wPotential
  split_ifs <;> omega

lemma wPotential_le (s : GameState)
    (ha : 0 ≤ s.escrowAmount.getD 0) :
    wPotential s ≤ 2 * s.escrowAmount.getD 0 := by
  have h1 := slotMax1_nonneg s ha
  have h2 := slotMax2_nonneg s ha
  have hb : slotMax1 s + slotMax2 s ≤ 2 * s.escrowAmount.getD 0 := by
    rcases hp1 : s.player1 with _ | p1
    · have e1 : slotMax1 s = 0 := by simp [slotMax1, hp1]
      have e2 : slotMax2 s = 0 := by simp [slotMax2, hp1]
      omega
    · rcases hp2 : s.player2 with _ | p2
      · have e2 : slotMax2 s = 0 := by simp [slotMax2, hp1, hp2]
        have e1 : slotMax1 s ≤ 2 * s.escrowAmount.getD 0 := by
          simp only [slotMax1, hp1]
          split_ifs <;> omega
        omega
      · by_cases hq : p2 = p1
        · have e2 : slotMax2 s = 0 := by simp [slotMax2, hp1, hp2, hq]
          have e1 : slotMax1 s ≤ 2 * s.escrowAmount.getD 0 := by
            simp only [slotMax1, hp1]
            split_ifs <;> omega
          omega
        · by_cases hf : s.phase = some PHASE_FINALIZED
          · by_cases hw1 : s.winner = some p1
            · have hw2 : ¬ (s.winner = some p2) := fun hw2 =>
                hq (Option.some_injective _ (hw1.symm.trans hw2)).symm
              have e1 : slotMax1 s = 2 * s.escrowAmount.getD 0 := by
                simp [slotMax1, hp1, hf, hw1]
              have e2 : slotMax2 s = 0 := by
                simp [slotMax2, hp1, hp2, hq, hf, hw2]
              omega
            · have e1 : slotMax1 s = 0 := by
                simp [slotMax1, hp1, hf, hw1]
              have e2 : slotMax2 s ≤ 2 * s.escrowAmount.getD 0 := by
                simp only [slotMax2, hp1, hp2]
                split_ifs <;> omega
              omega
          · have e1 : slotMax1 s = s.escrowAmount.getD 0 := by
              simp [slotMax1, hp1, hf]
            have e2 : slotMax2 s = s.escrowAmount.getD 0 := by
              simp [slotMax2, hp1, hp2, hq, hf]
            omega
  unfold wPotential
  split_ifs <;> omega

lemma withdraw_ok_potential (env : XEnv) (s s' : GameState) (c : Nat)
    (p : Int) (h : withdraw env s c = (s', .ok p)) :
    wPotential s' + p ≤ wPotential s ∧
    s'.escrowAmount = s.escrowAmount := by
  obtain ⟨ph, p1, p2, hphase, hphd, hp1, hp2, _, hmem, hguard, hpay,
    hs'⟩ := withdraw_ok_inv env s s' c p h
  by_cases hip1 : resolveCallerSimple env c = p1
  · rw [if_pos hip1] at hs'
    subst hs'
    refine ⟨?_, rfl⟩
    have hg : s.p1Withdrawn.getD false = false := by
      simpa [hip1] using hguard
    have hp_le : p ≤ slotMax1 s := by
      rcases hpay with ⟨hphF, hwin, hp⟩ | ⟨hphD, hrev, hp⟩
      · subst hphF
        rw [hip1] at hwin
        have e : slotMax1 s = 2 * s.escrowAmount.getD 0 := by
          simp [slotMax1, hp1, hphase, hwin]
        omega
      · subst hphD
        have hf : ¬ (s.phase = some PHASE_FINALIZED) := by
          rw [hphase]
          decide
        have e : slotMax1 s = s.escrowAmount.getD 0 := by
          simp [slotMax1, hp1, hf]
        omega
    have hm2 : slotMax2 { s with p1Withdrawn := some true } =
        slotMax2 s := rfl
    simp only [wPotential, hm2, hg]
    simp
    try split_ifs
    all_goals omega
  · have hip2 : resolveCallerSimple env c = p2 := hmem.resolve_left hip1
    rw [if_neg hip1] at hs'
    subst hs'
    refine ⟨?_, rfl⟩
    have hg : s.p2Withdrawn.getD false = false := by
      simpa [hip1] using hguard
    have hq : ¬ (p2 = p1) := fun he => hip1 (hip2.trans he)
    have hp_le : p ≤ slotMax2 s := by
      rcases hpay with ⟨hphF, hwin, hp⟩ | ⟨hphD, hrev, hp⟩
      · subst hphF
        rw [hip2] at hwin
        have e : slotMax2 s = 2 * s.escrowAmount.getD 0 := by
          simp [slotMax2, hp1, hp2, hq, hphase, hwin]
        omega
      · subst hphD
        have hf : ¬ (s.phase = some PHASE_FINALIZED) := by
          rw [hphase]
          decide
        have e : slotMax2 s = s.escrowAmount.getD 0 := by
          simp [slotMax2, hp1, hp2, hq, hf]
        omega
    have hm1 : slotMax1 { s with p2Withdrawn := some true } =
        slotMax1 s := rfl
    simp only [wPotential, hm1, hg]
    simp
    try split_ifs
    all_goals omega

lemma withdrawSeq_le_potential (env : XEnv) :
    ∀ (cs : List Nat) (s : GameState), 0 ≤ s.escrowAmount.getD 0 →
      (withdrawSeq env s cs).2 ≤ wPotential s := by
  intro cs
  induction cs with
  | nil =>
      intro s ha
      simpa [withdrawSeq] using wPotential_nonneg s ha
  | cons c cs ih =>
      intro s ha
      rcases hcall : withdraw env s c with ⟨s1, r1⟩
      cases r1 with
      | ok p =>
          have hstep := withdraw_ok_potential env s s1 c p hcall
          have ha1 : 0 ≤ s1.escrowAmount.getD 0 := by
            rw [hstep.2]
            exact ha
          have hrec := ih s1 ha1
          simp only [withdrawSeq, hcall]
          have := hstep.1
          omega
      | error e =>
          have hrec := ih s ha
          simp only [withdrawSeq, hcall]
          exact hrec

/-- C1: `withdraw` discipline.  In FINALIZED only the stored winner can
succeed and receives exactly twice the per-player stake; any other player
(guard clear, token set) receives `NotWinner`.  In DRAW a player whose
draw-reveal flag is clear receives `InvalidReveal`, and a success pays
exactly the player's own stake and requires the flag.  Every success
flips the caller's one-shot guard from false to true and a repeat call
fails with `AlreadyWithdrawn` leaving storage unchanged; the summed
payout of any sequence of withdraw calls never exceeds twice the
per-player stake. -/
theorem withdraw_payout_discipline (env : XEnv) (s : GameState) (c : Nat)
    (p1 p2 : Nat) (a : Int)
    (hp1 : s.player1 = some p1) (hp2 : s.player2 = some p2)
    (ha : s.escrowAmount = some a) :
    (∀ s' p, s.phase = some PHASE_FINALIZED →
      withdraw env s c = (s', .ok p) →
      s.winner = some (resolveCallerSimple env c) ∧ p = a * 2) ∧
    (∀ w, s.phase = some PHASE_FINALIZED → s.winner = some w →
      (resolveCallerSimple env c = p1 ∨ resolveCallerSimple env c = p2) →
      (if resolveCallerSimple env c = p1 then s.p1Withdrawn
       else s.p2Withdrawn).getD false = false →
      s.escrowToken ≠ none →
      resolveCallerSimple env c ≠ w →
      (withdraw env s c).2 = .error .NotWinner) ∧
    (s.phase = some PHASE_DRAW →
      (resolveCallerSimple env c = p1 ∨ resolveCallerSimple env c = p2) →
      (if resolveCallerSimple env c = p1 then s.p1Withdrawn
       else s.p2Withdrawn).getD false = false →
      s.escrowToken ≠ none →
      (if resolveCallerSimple env c = p1 then s.p1Revealed
       else s.p2Revealed).getD false = false →
      (withdraw env s c).2 = .error .InvalidReveal) ∧
    (∀ s' p, s.phase = some PHASE_DRAW →
      withdraw env s c = (s', .ok p) →
      (if resolveCallerSimple env c = p1 then s.p1Revealed
       else s.p2Revealed).getD false = true ∧ p = a) ∧
    (∀ s' p, withdraw env s c = (s', .ok p) →
      (if resolveCallerSimple env c = p1 then s.p1Withdrawn
       else s.p2Withdrawn).getD false = false ∧
      (if resolveCallerSimple env c = p1 then s'.p1Withdrawn
       else s'.p2Withdrawn) = some true ∧
      withdraw env s' c = (s', .error .AlreadyWithdrawn)) ∧
    (∀ cs : List Nat, 0 ≤ a → (withdrawSeq env s cs).2 ≤ 2 * a) := by
  refine ⟨?_, ?_, ?_, ?_, ?_, ?_⟩
  · intro s' p hphF h
    obtain ⟨ph, p1', p2', hphase, hphd, hp1', hp2', _, hmem, hguard,
      hpay, hs'⟩ := withdraw_ok_inv env s s' c p h
    rw [hphF] at hphase
    obtain rfl := Option.some_injective _ hphase.symm
    rcases hpay with ⟨_, hwin, hp⟩ | ⟨hphD, _, _⟩
    · refine ⟨hwin, ?_⟩
      rw [hp, ha]
      simp
    · exact absurd hphD (by decide)
  · intro w hphF hwin hmem hwd htok hne
    have hpd : ¬ (PHASE_FINALIZED ≠ PHASE_FINALIZED ∧
        PHASE_FINALIZED ≠ PHASE_DRAW) := by decide
    have hnw : ¬ (¬ resolveCallerSimple env c = p1 ∧
        ¬ resolveCallerSimple env c = p2) := fun hcon =>
      hmem.elim hcon.1 hcon.2
    obtain ⟨tk, htok'⟩ := Option.ne_none_iff_exists'.mp htok
    simp [withdraw, hphF, hp1, hp2, hpd, hnw, hwd, htok', hwin, hne]
  · intro hphD hmem hwd htok hrev
    have hpd : ¬ (PHASE_DRAW ≠ PHASE_FINALIZED ∧
        PHASE_DRAW ≠ PHASE_DRAW) := by decide
    have hfin : ¬ (PHASE_DRAW = PHASE_FINALIZED) := by decide
    have hnw : ¬ (¬ resolveCallerSimple env c = p1 ∧
        ¬ resolveCallerSimple env c = p2) := fun hcon =>
      hmem.elim hcon.1 hcon.2
    obtain ⟨tk, htok'⟩ := Option.ne_none_iff_exists'.mp htok
    simp [withdraw, hphD, hp1, hp2, hpd, hfin, hnw, hwd, htok', hrev]
  · intro s' p hphD h
    obtain ⟨ph, p1', p2', hphase, hphd, hp1', hp2', _, hmem, hguard,
      hpay, hs'⟩ := withdraw_ok_inv env s s' c p h
    rw [hphD] at hphase
    obtain rfl := Option.some_injective _ hphase.symm
    rw [hp1] at hp1'
    rw [hp2] at hp2'
    obtain rfl := Option.some_injective _ hp1'
    obtain rfl := Option.some_injective _ hp2'
    rcases hpay with ⟨hphF, _, _⟩ | ⟨_, hrev, hp⟩
    · exact absurd hphF (by decide)
    · refine ⟨hrev, ?_⟩
      rw [hp, ha]
      simp
  · intro s' p h
    obtain ⟨ph, p1', p2', hphase, hphd, hp1', hp2', htok, hmem, hguard,
      hpay, hs'⟩ := withdraw_ok_inv env s s' c p h
    rw [hp1] at hp1'
    rw [hp2] at hp2'
    obtain rfl := Option.some_injective _ hp1'
    obtain rfl := Option.some_injective _ hp2'
    have hpd : ¬ (ph ≠ PHASE_FINALIZED ∧ ph ≠ PHASE_DRAW) := fun hcon =>
      hphd.elim hcon.1 hcon.2
    have hnw : ¬ (¬ resolveCallerSimple env c = p1 ∧
        ¬ resolveCallerSimple env c = p2) := fun hcon =>
      hmem.elim hcon.1 hcon.2
    obtain ⟨tk, htok'⟩ := Option.ne_none_iff_exists'.mp htok
    by_cases hip1 : resolveCallerSimple env c = p1
    · rw [if_pos hip1] at hs'
      subst hs'
      refine ⟨hguard, by simp [hip1], ?_⟩
      simp [withdraw, hphase, hp1, hp2, hpd, hnw, hip1, htok']
    · have hip2 : resolveCallerSimple env c = p2 := hmem.resolve_left hip1
      have hq : ¬ (p2 = p1) := fun he => hip1 (hip2.trans he)
      rw [if_neg hip1] at hs'
      subst hs'
      refine ⟨hguard, by simp [hip1], ?_⟩
      simp [withdraw, hphase, hp1, hp2, hpd, hip1, hip2, hq, htok']
  · intro cs h0
    have ha0 : 0 ≤ s.escrowAmount.getD 0 := by
      rw [ha]
      simpa using h0
    have h1 := withdrawSeq_le_potential env cs s ha0
    have h2 := wPotential_le s ha0
    rw [ha] at h2
    simp at h2
    omega

/-- A concrete FINALIZED game: winner player2, stake 5, no withdrawals
yet. -/
def sFin : GameState :=
  ⟨some PHASE_FINALIZED, some 1, some 2, some zeros32, some zeros32,
   some 5, some 100, some aaaaa, none, some 2, some 0, some 5, none,
   none, none, none, none, none, none, none⟩

/-- `sFin` after the winner's withdrawal. -/
def sFinAfter : GameState :=
  ⟨some PHASE_FINALIZED, some 1, some 2, some zeros32, some zeros32,
   some 5, some 100, some aaaaa, none, some 2, some 0, some 5, none,
   some true, none, none, none, none, none, none⟩

/-- Witness for C1: the winner (player2) withdraws 10 = 2 × 5 from
`sFin`; any sequence of further calls never pays more than 10 total. -/
theorem withdraw_payout_discipline_witness :
    withdraw envAccept sFin 2 = (sFinAfter, .ok 10) ∧
    sFin.winner = some (resolveCallerSimple envAccept 2) ∧
    (withdrawSeq envAccept sFin [2, 2, 1]).2 ≤ 2 * 5 := by
  have h := withdraw_payout_discipline envAccept sFin 2 1 2 5 rfl rfl rfl
  have hok : withdraw envAccept sFin 2 = (sFinAfter, .ok 10) := by rfl
  exact ⟨hok, (h.1 sFinAfter 10 rfl hok).1,
    h.2.2.2.2.2 [2, 2, 1] (by decide)⟩

/-- An environment at time 101 (past the deadline 100 used below). -/
def envLate : XEnv :=
  ⟨101, fun _ => none, 0, 1, true, true, fun _ _ => true, true, true,
   fun _ _ => true, fun a b => a + b⟩

/-- A concrete ACTIVE game at turn 1 whose deadline 100 has passed at
time 101. -/
def sActive1 : GameState :=
  ⟨some PHASE_ACTIVE, some 1, some 2, some zeros32, some zeros32,
   some 1, some 100, none, none, none, some 0, some 5, none, none, none,
   none, none, none, none, none⟩

/-- `sActive1` after address 7 (neither player) wins by timeout claim. -/
def sAfterTimeout : GameState :=
  ⟨some PHASE_FINALIZED, some 1, some 2, some zeros32, some zeros32,
   some 1, some 100, none, none, some 7, some 0, some 5, none, none,
   none, none, none, none, none, some aaaaa⟩

/-- C4 (code bug): `claim_timeout` only rejects the timed-out player, not
callers outside the game.  Address 7, which is neither player1 = 1 nor
player2 = 2, calls `claim_timeout` after the deadline with a reveal proof
the opaque verifier accepts against player2's commitment slot, and instead
of failing with `WrongPlayer` the call succeeds: 7 is stored as winner and
the phase becomes FINALIZED.  The claim (and the source comment "Caller
must be the opponent of the timed-out player") requires the caller to be
the opponent. -/
theorem claim_timeout_stranger_accepted :
    (7 ≠ 1 ∧ 7 ≠ 2) ∧
    claimTimeout envLate sActive1 7 aaaaa piAllCorrect [0] =
      (sAfterTimeout, some (.ok [HubCall.endGame false])) ∧
    sAfterTimeout.winner = some 7 ∧
    sAfterTimeout.phase = some PHASE_FINALIZED := by
  exact ⟨⟨by decide, by decide⟩, by rfl, rfl, rfl⟩
